import Mathlib

/-!
Verification of the Adaptive Media Delivery & Episode Sequencing Engine
(senkloud, `src/senkloud-frontend/app.py`) against its natural-language
specification.

The Python source is shallowly embedded: files are `List Nat` (byte values),
strings are Lean `String` / `List Char`, Python dicts are structures or
association lists, Python exceptions are `Except Unit` results, and the
nondeterministic inputs (current time, generated token text, the incoming
request) are explicit parameters.  Each definition follows the corresponding
Python function; the regular expressions of the source are embedded through a
small backtracking matcher (`RE` / `reMatches` / `reSearch`) that reproduces
Python `re.search` semantics (leftmost match position, lazy/greedy quantifier
priority) for the constructs those patterns use.
-/

namespace Senkloud

/-! ### Basic helpers: decimal digits, Python whitespace and `strip` -/

/-- Python `int` applied to a string of decimal digits:
left fold `10*acc + digit`. -/
def digitsToNat (l : List Char) : Nat :=
  l.foldl (fun a c => 10 * a + (c.toNat - 48)) 0

/-- One decimal digit as a character. -/
def digitChar : Nat → Char
  | 0 => '0' | 1 => '1' | 2 => '2' | 3 => '3' | 4 => '4'
  | 5 => '5' | 6 => '6' | 7 => '7' | 8 => '8' | _ => '9'

/-- Little-endian decimal digits of a natural number. -/
def natDigitsRev (n : Nat) : List Char :=
  if h : n < 10 then [digitChar n]
  else digitChar (n % 10) :: natDigitsRev (n / 10)
termination_by n
decreasing_by
  exact Nat.div_lt_self (by omega) (by omega)

/-- Usual (big-endian) decimal digits of a natural number. -/
def natDigits (n : Nat) : List Char := (natDigitsRev n).reverse

/-- Little-endian value of a digit list. -/
def valRev : List Char → Nat
  | [] => 0
  | c :: cs => (c.toNat - 48) + 10 * valRev cs

theorem digitsToNat_reverse (l : List Char) :
    digitsToNat l.reverse = valRev l := by
  induction l with
  | nil => rfl
  | cons c cs ih =>
    simp only [List.reverse_cons, digitsToNat, List.foldl_append, List.foldl_cons,
      List.foldl_nil, valRev] at ih ⊢
    omega

theorem digitChar_isDigit {k : Nat} : (digitChar k).isDigit = true := by
  unfold digitChar
  split <;> decide

theorem digitChar_toNat {k : Nat} (h : k < 10) : (digitChar k).toNat - 48 = k := by
  interval_cases k <;> decide

theorem valRev_natDigitsRev (n : Nat) : valRev (natDigitsRev n) = n := by
  induction n using Nat.strong_induction_on with
  | _ n ih =>
    rw [natDigitsRev]
    split
    · next h => simp [valRev, digitChar_toNat h]
    · next h =>
      have hd : n / 10 < n := Nat.div_lt_self (by omega) (by omega)
      simp only [valRev, ih _ hd, digitChar_toNat (Nat.mod_lt n (by omega))]
      omega

theorem digitsToNat_natDigits (n : Nat) : digitsToNat (natDigits n) = n := by
  rw [natDigits, digitsToNat_reverse, valRev_natDigitsRev]

theorem natDigitsRev_ne_nil (n : Nat) : natDigitsRev n ≠ [] := by
  rw [natDigitsRev]; split <;> simp

theorem natDigits_ne_nil (n : Nat) : natDigits n ≠ [] := by
  simp [natDigits, natDigitsRev_ne_nil n]

theorem natDigitsRev_all_digit (n : Nat) :
    ∀ c ∈ natDigitsRev n, c.isDigit = true := by
  induction n using Nat.strong_induction_on with
  | _ n ih =>
    rw [natDigitsRev]
    split
    · intro c hc; simp at hc; subst hc; exact digitChar_isDigit
    · next h =>
      intro c hc
      rcases List.mem_cons.mp hc with h1 | h2
      · subst h1; exact digitChar_isDigit
      · exact ih _ (Nat.div_lt_self (by omega) (by omega)) c h2

theorem natDigits_all_digit (n : Nat) :
    ∀ c ∈ natDigits n, c.isDigit = true := by
  intro c hc
  exact natDigitsRev_all_digit n c (List.mem_reverse.mp hc)

/-- The whitespace characters of Python's `str.strip` / regex `\s`
(ASCII range; the inputs of interest contain no exotic Unicode spaces). -/
def isPySpace (c : Char) : Bool :=
  c = ' ' || c = '\t' || c = '\n' || c = '\r' || c = '\x0b' || c = '\x0c'

/-- Python `str.strip()`: remove leading and trailing whitespace. -/
def pyStrip (l : List Char) : List Char :=
  ((l.dropWhile isPySpace).reverse.dropWhile isPySpace).reverse

/-! ### Range parsing: `re.search(r'bytes=(\d+)-(\d*)', range_header)`

`(\d+)` is a greedy digit run followed by the literal `-`; since shrinking
the run would leave a digit (never `-`) as the next character, backtracking
over `(\d+)` can never succeed, so the Python match is exactly: the literal
`bytes=`, a maximal nonempty digit run, `-`, then a maximal (possibly empty)
digit run, at the leftmost position where this succeeds. -/

/-- Try the range regex anchored at the start of `cs`.  Returns the numeric
first group and, when the second group is nonempty, its numeric value
(`match.group(2)` is falsy in Python exactly when it is the empty string). -/
def matchBytesAt (cs : List Char) : Option (Nat × Option Nat) :=
  if cs.take 6 = "bytes=".data then
    let rest := cs.drop 6
    let d1 := rest.takeWhile Char.isDigit
    if d1 = [] then none
    else
      match rest.dropWhile Char.isDigit with
      | '-' :: rest2 =>
        let d2 := rest2.takeWhile Char.isDigit
        some (digitsToNat d1, if d2 = [] then none else some (digitsToNat d2))
      | _ => none
  else none

/-- `re.search`: try successive start positions, leftmost match wins. -/
def searchBytesRange : List Char → Option (Nat × Option Nat)
  | [] => none
  | c :: cs =>
    match matchBytesAt (c :: cs) with
    | some r => some r
    | none => searchBytesRange cs

/-! ### The chunked body generator of `stream_file_with_ranges.generate` -/

/-- `Config.CHUNK_SIZE = 8192 * 4`. -/
def CHUNK_SIZE : Nat := 8192 * 4

/-- Python `f.read(k)` after the cursor has been positioned at `pos`. -/
def pyRead (file : List Nat) (pos k : Nat) : List Nat :=
  (file.drop pos).take k

/-- The chunk the next loop iteration reads:
`f.read(min(Config.CHUNK_SIZE, remaining))` at the current position. -/
def nextChunk (file : List Nat) (pos : Nat) (remaining : Int) : List Nat :=
  pyRead file pos (min CHUNK_SIZE remaining.toNat)

/-- The generator: seek to `pos`, then read chunks of
`min(CHUNK_SIZE, remaining)` until `remaining <= 0` or a read comes back
empty, emitting every chunk. -/
def generate (file : List Nat) (pos : Nat) (remaining : Int) : List Nat :=
  if remaining ≤ 0 then []
  else if hc : nextChunk file pos remaining = [] then []
  else nextChunk file pos remaining ++
    generate file (pos + (nextChunk file pos remaining).length)
      (remaining - (nextChunk file pos remaining).length)
termination_by remaining.toNat
decreasing_by
  have h1 : 1 ≤ (nextChunk file pos remaining).length := by
    cases hq : nextChunk file pos remaining with
    | nil => exact absurd hq hc
    | cons a l => simp [hq]
  omega

/-- The generator emits exactly the bytes of the file from `pos` on,
truncated to `remaining` bytes (and to the end of the file). -/
theorem generate_eq (file : List Nat) :
    ∀ (n : Nat) (pos : Nat) (remaining : Int), remaining.toNat ≤ n →
      generate file pos remaining = (file.drop pos).take remaining.toNat := by
  intro n
  induction n with
  | zero =>
    intro pos remaining h
    unfold generate
    have h0 : remaining ≤ 0 := by omega
    have h1 : remaining.toNat = 0 := by omega
    simp [h0, h1]
  | succ n ih =>
    intro pos remaining h
    unfold generate
    split
    · next hle =>
      have h1 : remaining.toNat = 0 := by omega
      simp [h1]
    · next hpos =>
      have hrem : 0 < remaining := by omega
      have hk1 : 1 ≤ min CHUNK_SIZE remaining.toNat := by
        have : 1 ≤ remaining.toNat := by omega
        simp [CHUNK_SIZE]; omega
      split
      · next hc =>
        -- empty read: the file has no bytes at or after `pos`
        have hnil : file.drop pos = [] := by
          by_contra hne
          rw [nextChunk, pyRead, List.take_eq_nil_iff] at hc
          rcases hc with h1 | h1
          · have hck : 0 < CHUNK_SIZE := by decide
            have h2 : 0 < remaining.toNat := by omega
            have h3 : 0 < min CHUNK_SIZE remaining.toNat := lt_min hck h2
            omega
          · exact hne h1
        simp [hnil]
      · next hc =>
        set L := file.drop pos with hL
        set k := min CHUNK_SIZE remaining.toNat with hk
        have hchunk : nextChunk file pos remaining = L.take k := by
          simp [nextChunk, pyRead, hL, hk]
        have hlen : (L.take k).length = min k L.length := by simp
        have hlen1 : 1 ≤ (L.take k).length := by
          have hne : L.take k ≠ [] := by rw [← hchunk]; exact hc
          have := List.length_pos.mpr hne
          omega
        have hdrop : file.drop (pos + (L.take k).length) = L.drop (L.take k).length := by
          rw [hL, List.drop_drop]
        have hrec := ih (pos + (L.take k).length)
          (remaining - (L.take k).length) (by omega)
        rw [hchunk, hrec, hdrop]
        have htn : (remaining - ((L.take k).length : Int)).toNat
            = remaining.toNat - (L.take k).length := by omega
        rw [htn]
        -- combine the first chunk with the recursively generated tail
        rcases le_or_lt k L.length with hkL | hkL
        · have hlk : (L.take k).length = k := by rw [hlen]; omega
          rw [hlk]
          have hsplit : L.take remaining.toNat = L.take (k + (remaining.toNat - k)) := by
            congr 1
            have : k ≤ remaining.toNat := by rw [hk]; omega
            omega
          rw [hsplit, List.take_add]
        · -- the read returned the whole remainder of the file
          have htk : L.take k = L := List.take_of_length_le (by omega)
          rw [htk, List.drop_length, List.take_nil, List.append_nil]
          have hkr : k ≤ remaining.toNat := by rw [hk]; omega
          exact (List.take_of_length_le (by omega)).symm

/-! ### `stream_file_with_ranges`

The model keeps the parts of the response the specification talks about:
status code, the `Content-Length` value, the `Content-Range` triple
(start, end, total size) and the streamed body.  The content-type table and
the video-duration header of the source are not touched by any claim and are
omitted.  A present-but-empty `Range` header is falsy in Python
(`if range_header:`), which the model reproduces. -/

structure StreamResponse where
  status : Nat
  contentLength : Int
  contentRange : Option (Int × Int × Int)
  body : List Nat
deriving DecidableEq

/-- `stream_file_with_ranges(file_path)`: `file` is the content of the file
on disk, `rangeHeader` is `request.headers.get('Range', None)`. -/
def stream_file_with_ranges (file : List Nat) (rangeHeader : Option String) :
    StreamResponse :=
  let size : Int := (file.length : Int)
  let hasHeader : Bool := match rangeHeader with
    | none => false
    | some h => h ≠ ""
  let m : Option (Nat × Option Nat) :=
    if hasHeader then searchBytesRange (rangeHeader.getD "").data else none
  let byteStart : Int := match m with
    | some (s, _) => (s : Int)
    | none => 0
  let byteEnd0 : Int := match m with
    | some (_, some e) => (e : Int)
    | _ => size - 1
  let byteEnd : Int := min byteEnd0 (size - 1)
  let contentLength : Int := byteEnd - byteStart + 1
  { status := if hasHeader then 206 else 200
    contentLength := contentLength
    contentRange := if hasHeader then some (byteStart, byteEnd, size) else none
    body := generate file byteStart.toNat contentLength }

/-- The header string `bytes=<start>-<end>` (decimal). -/
def mkRangeHeader (s e : Nat) : String :=
  ⟨"bytes=".data ++ (natDigits s ++ '-' :: natDigits e)⟩

/-- The header string `bytes=<start>-` (open end). -/
def mkOpenRangeHeader (s : Nat) : String :=
  ⟨"bytes=".data ++ (natDigits s ++ ['-'])⟩

/-- Bytes `s..e` (inclusive, `Int` offsets) of a file; empty when `e < s`. -/
def byteSlice (file : List Nat) (s e : Int) : List Nat :=
  (file.drop s.toNat).take (e - s + 1).toNat

theorem takeWhile_append_all {p : Char → Bool} {l1 : List Char}
    (h : ∀ c ∈ l1, p c = true) (l2 : List Char) :
    (l1 ++ l2).takeWhile p = l1 ++ l2.takeWhile p := by
  induction l1 with
  | nil => simp
  | cons c cs ih =>
    have hc : p c = true := h c (by simp)
    simp only [List.cons_append, List.takeWhile_cons, hc, if_true]
    rw [ih (fun x hx => h x (by simp [hx]))]

theorem dropWhile_append_all {p : Char → Bool} {l1 : List Char}
    (h : ∀ c ∈ l1, p c = true) (l2 : List Char) :
    (l1 ++ l2).dropWhile p = l2.dropWhile p := by
  induction l1 with
  | nil => simp
  | cons c cs ih =>
    have hc : p c = true := h c (by simp)
    simp only [List.cons_append, List.dropWhile_cons, hc, if_true]
    exact ih (fun x hx => h x (by simp [hx]))

theorem takeWhile_all {p : Char → Bool} {l : List Char}
    (h : ∀ c ∈ l, p c = true) : l.takeWhile p = l := by
  have := takeWhile_append_all h ([] : List Char)
  simpa using this

theorem matchBytesAt_exact {tail : List Char} (d1 d2 : List Char)
    (h1 : ∀ c ∈ d1, c.isDigit = true) (h1n : d1 ≠ [])
    (h2 : ∀ c ∈ d2, c.isDigit = true)
    (htail : tail = d1 ++ '-' :: d2) :
    matchBytesAt ("bytes=".data ++ tail) =
      some (digitsToNat d1, if d2 = [] then none else some (digitsToNat d2)) := by
  subst htail
  rw [matchBytesAt]
  have ht : ("bytes=".data ++ (d1 ++ '-' :: d2)).take 6 = "bytes=".data := by
    rw [show (6 : Nat) = ("bytes=".data).length from rfl]
    exact List.take_left _ _
  have hdr : ("bytes=".data ++ (d1 ++ '-' :: d2)).drop 6 = d1 ++ '-' :: d2 := by
    rw [show (6 : Nat) = ("bytes=".data).length from rfl]
    exact List.drop_left _ _
  have htw : (d1 ++ '-' :: d2).takeWhile Char.isDigit = d1 := by
    rw [takeWhile_append_all h1]
    simp [List.takeWhile_cons]
  have hdw : (d1 ++ '-' :: d2).dropWhile Char.isDigit = '-' :: d2 := by
    rw [dropWhile_append_all h1]
    simp [List.dropWhile_cons]
  simp only [ht, hdr, htw, hdw, h1n, takeWhile_all h2]
  simp

/-- Parsing a well-formed `bytes=<s>-<e>` header recovers `s` and `e`. -/
theorem searchBytesRange_mkRangeHeader (s e : Nat) :
    searchBytesRange (mkRangeHeader s e).data = some (s, some e) := by
  have hmatch := matchBytesAt_exact (natDigits s) (natDigits e)
    (natDigits_all_digit s) (natDigits_ne_nil s) (natDigits_all_digit e) rfl
  have hstep : searchBytesRange ("bytes=".data ++ (natDigits s ++ '-' :: natDigits e)) =
      match matchBytesAt ("bytes=".data ++ (natDigits s ++ '-' :: natDigits e)) with
      | some r => some r
      | none => searchBytesRange ("ytes=".data ++ (natDigits s ++ '-' :: natDigits e)) := rfl
  show searchBytesRange ("bytes=".data ++ (natDigits s ++ '-' :: natDigits e)) = some (s, some e)
  rw [hstep, hmatch]
  simp [natDigits_ne_nil e, digitsToNat_natDigits]

/-- Parsing a well-formed `bytes=<s>-` header recovers `s` with no end. -/
theorem searchBytesRange_mkOpenRangeHeader (s : Nat) :
    searchBytesRange (mkOpenRangeHeader s).data = some (s, none) := by
  have hmatch := matchBytesAt_exact (natDigits s) []
    (natDigits_all_digit s) (natDigits_ne_nil s) (by intro c hc; cases hc)
    rfl
  have hstep : searchBytesRange ("bytes=".data ++ (natDigits s ++ ['-'])) =
      match matchBytesAt ("bytes=".data ++ (natDigits s ++ ['-'])) with
      | some r => some r
      | none => searchBytesRange ("ytes=".data ++ (natDigits s ++ ['-'])) := rfl
  show searchBytesRange ("bytes=".data ++ (natDigits s ++ ['-'])) = some (s, none)
  rw [hstep, hmatch]
  simp [digitsToNat_natDigits]

/-- The effective (clamped) end offset: the parsed end if the second group
was nonempty, else `size-1`; then `min`-clamped to `size-1`. -/
def effEnd (N : Int) (oe : Option Nat) : Int :=
  min (match oe with | some e => (e : Int) | none => N - 1) (N - 1)

theorem mkRangeHeader_ne_empty (s e : Nat) : mkRangeHeader s e ≠ "" := by
  intro h
  have h2 := congrArg String.data h
  rw [show (mkRangeHeader s e).data
    = "bytes=".data ++ (natDigits s ++ '-' :: natDigits e) from rfl] at h2
  rw [show ("" : String).data = [] from rfl] at h2
  rcases List.append_eq_nil.mp h2 with ⟨h3, _⟩
  exact absurd h3 (by decide)

theorem mkOpenRangeHeader_ne_empty (s : Nat) : mkOpenRangeHeader s ≠ "" := by
  intro h
  have h2 := congrArg String.data h
  rw [show (mkOpenRangeHeader s).data
    = "bytes=".data ++ (natDigits s ++ ['-']) from rfl] at h2
  rw [show ("" : String).data = [] from rfl] at h2
  rcases List.append_eq_nil.mp h2 with ⟨h3, _⟩
  exact absurd h3 (by decide)

/-- How `stream_file_with_ranges` responds when the `Range` header is a
nonempty string in which the regex finds `(s, oe)`. -/
theorem stream_parsed (file : List Nat) (hd : String) (s : Nat) (oe : Option Nat)
    (hne : hd ≠ "") (hp : searchBytesRange hd.data = some (s, oe)) :
    stream_file_with_ranges file (some hd) =
      { status := 206
        contentLength := effEnd (file.length : Int) oe - s + 1
        contentRange := some ((s : Int), effEnd (file.length : Int) oe, (file.length : Int))
        body := generate file s (effEnd (file.length : Int) oe - s + 1) } := by
  cases oe with
  | none =>
    simp [stream_file_with_ranges, hne, hp, effEnd]
  | some e =>
    simp [stream_file_with_ranges, hne, hp, effEnd]

/-- How `stream_file_with_ranges` responds when the `Range` header is a
nonempty string the regex does not match. -/
theorem stream_unparsed (file : List Nat) (hd : String)
    (hne : hd ≠ "") (hp : searchBytesRange hd.data = none) :
    stream_file_with_ranges file (some hd) =
      { status := 206
        contentLength := (file.length : Int)
        contentRange := some (0, (file.length : Int) - 1, (file.length : Int))
        body := generate file 0 (file.length : Int) } := by
  simp [stream_file_with_ranges, hne, hp]

/-- How `stream_file_with_ranges` responds with no `Range` header. -/
theorem stream_noheader (file : List Nat) :
    stream_file_with_ranges file none =
      { status := 200
        contentLength := (file.length : Int)
        contentRange := none
        body := generate file 0 (file.length : Int) } := by
  simp [stream_file_with_ranges]

theorem generate_whole (file : List Nat) :
    generate file 0 (file.length : Int) = file := by
  rw [generate_eq file file.length 0 (file.length : Int) (by omega)]
  simp

/-- C1: for every file of size `N >= 1` and every request with header
`Range: bytes=<start>-<end>` where `0 <= start <= N-1`, the response has
status 206, `Content-Range: bytes start-end'/N` with `end' = min(end, N-1)`
(an end beyond the file size is clamped, never rejected), `Content-Length`
equal to `end'-start+1`, and a body equal exactly to bytes `start..end'`
(inclusive) of the source file. -/
theorem C1_bounded_range_request (file : List Nat) (s e : Nat)
    (hN : 1 ≤ file.length) (hs : s ≤ file.length - 1) :
    (stream_file_with_ranges file (some (mkRangeHeader s e))).status = 206 ∧
    (stream_file_with_ranges file (some (mkRangeHeader s e))).contentRange =
      some ((s : Int), min (e : Int) ((file.length : Int) - 1), (file.length : Int)) ∧
    (stream_file_with_ranges file (some (mkRangeHeader s e))).contentLength =
      min (e : Int) ((file.length : Int) - 1) - (s : Int) + 1 ∧
    (stream_file_with_ranges file (some (mkRangeHeader s e))).body =
      byteSlice file (s : Int) (min (e : Int) ((file.length : Int) - 1)) := by
  have hp := searchBytesRange_mkRangeHeader s e
  have hst := stream_parsed file (mkRangeHeader s e) s (some e)
    (mkRangeHeader_ne_empty s e) hp
  rw [hst]
  have heff : effEnd (file.length : Int) (some e)
      = min (e : Int) ((file.length : Int) - 1) := rfl
  refine ⟨rfl, by rw [heff], by rw [heff], ?_⟩
  rw [heff]
  have hbody := generate_eq file
    (min (e : Int) ((file.length : Int) - 1) - (s : Int) + 1).toNat s
    (min (e : Int) ((file.length : Int) - 1) - (s : Int) + 1) (le_refl _)
  show generate file s _ = _
  rw [hbody, byteSlice]
  simp

/-- C1 witness: a concrete in-bounds range request, with the end clamped. -/
theorem C1_bounded_range_request_witness :
    (stream_file_with_ranges [7, 8, 9] (some (mkRangeHeader 1 5))).status = 206 ∧
    (stream_file_with_ranges [7, 8, 9] (some (mkRangeHeader 1 5))).contentRange =
      some ((1 : Int), min (5 : Int) (((3 : Nat) : Int) - 1), ((3 : Nat) : Int)) ∧
    (stream_file_with_ranges [7, 8, 9] (some (mkRangeHeader 1 5))).contentLength =
      min (5 : Int) (((3 : Nat) : Int) - 1) - (1 : Int) + 1 ∧
    (stream_file_with_ranges [7, 8, 9] (some (mkRangeHeader 1 5))).body =
      byteSlice [7, 8, 9] (1 : Int) (min (5 : Int) (((3 : Nat) : Int) - 1)) :=
  C1_bounded_range_request [7, 8, 9] 1 5 (by decide) (by decide)

/-- Check whether a list of inclusive ranges partitions `[lo, N-1]` in
order: each range starts where the previous one ended plus one, is
nonempty, and stays below `N`. -/
def coversFrom (lo N : Nat) : List (Nat × Nat) → Bool
  | [] => lo = N
  | (s, e) :: rest => s = lo && s ≤ e && e < N && coversFrom (e + 1) N rest

theorem C2_aux (file : List Nat) :
    ∀ (rs : List (Nat × Nat)) (lo : Nat),
      coversFrom lo file.length rs = true →
      (rs.map (fun r =>
        (stream_file_with_ranges file (some (mkRangeHeader r.1 r.2))).body)).flatten
        = file.drop lo := by
  intro rs
  induction rs with
  | nil =>
    intro lo hc
    simp only [coversFrom, decide_eq_true_eq] at hc
    simp [hc]
  | cons r rest ih =>
    intro lo hc
    obtain ⟨s, e⟩ := r
    simp only [coversFrom, Bool.and_eq_true, decide_eq_true_eq] at hc
    obtain ⟨⟨⟨hs, hse⟩, he⟩, hrest⟩ := hc
    have hp := searchBytesRange_mkRangeHeader s e
    have hst := stream_parsed file (mkRangeHeader s e) s (some e)
      (mkRangeHeader_ne_empty s e) hp
    simp only [List.map_cons, List.flatten_cons, hst]
    have heff : effEnd (file.length : Int) (some e) = (e : Int) := by
      show min (e : Int) ((file.length : Int) - 1) = (e : Int)
      omega
    rw [heff]
    have hbody := generate_eq file ((e : Int) - (s : Int) + 1).toNat s
      ((e : Int) - (s : Int) + 1) (le_refl _)
    show generate file s _ ++ _ = _
    rw [hbody, ih (e + 1) hrest]
    have htn : ((e : Int) - (s : Int) + 1).toNat = e - s + 1 := by omega
    rw [htn]
    have hdd : file.drop (e + 1) = (file.drop s).drop (e - s + 1) := by
      rw [List.drop_drop]
      congr 1
      omega
    rw [hdd, List.take_append_drop, hs]

/-- C2: for every file, concatenating the bodies of any ordered sequence of
`bytes=<s>-<e>` range requests whose intervals partition `[0, N-1]`
reconstructs the file byte-for-byte. -/
theorem C2_range_roundtrip (file : List Nat) (rs : List (Nat × Nat))
    (h : coversFrom 0 file.length rs = true) :
    (rs.map (fun r =>
      (stream_file_with_ranges file (some (mkRangeHeader r.1 r.2))).body)).flatten
      = file := by
  rw [C2_aux file rs 0 h]
  rfl

/-- C2 witness: two adjacent ranges reassemble a concrete file. -/
theorem C2_range_roundtrip_witness :
    (([( (0 : Nat), (1 : Nat) ), ((2 : Nat), (3 : Nat))]).map (fun r =>
      (stream_file_with_ranges [3, 1, 4, 1] (some (mkRangeHeader r.1 r.2))).body)).flatten
      = [3, 1, 4, 1] :=
  C2_range_roundtrip [3, 1, 4, 1] [(0, 1), (2, 3)] (by decide)

/-- C3 counterexample: a present-but-malformed `Range` header is *not*
treated exactly as an absent one — the response is marked 206 with a
`Content-Range` header, while the no-header response is a plain 200. -/
theorem C3_counterexample :
    (stream_file_with_ranges [10, 20, 30] (some "bytes=x-y")).status = 206 ∧
    (stream_file_with_ranges [10, 20, 30] none).status = 200 ∧
    stream_file_with_ranges [10, 20, 30] (some "bytes=x-y") ≠
      stream_file_with_ranges [10, 20, 30] none := by
  decide

/-- C3 (amended): a nonempty `Range` header in which the regex finds no
`bytes=<digits>-` match is treated as "no range" for the byte window — the
full file is served with `Content-Length = N` and no error — but the
response still carries status 206 and `Content-Range: bytes 0-(N-1)/N`
because the raw header is present. -/
theorem C3_malformed_serves_whole_file (file : List Nat) (hd : String)
    (hne : hd ≠ "") (hp : searchBytesRange hd.data = none) :
    (stream_file_with_ranges file (some hd)).body = file ∧
    (stream_file_with_ranges file (some hd)).contentLength = (file.length : Int) ∧
    (stream_file_with_ranges file (some hd)).status = 206 ∧
    (stream_file_with_ranges file (some hd)).contentRange =
      some (0, (file.length : Int) - 1, (file.length : Int)) := by
  rw [stream_unparsed file hd hne hp]
  exact ⟨generate_whole file, rfl, rfl, rfl⟩

/-- C3 witness: a malformed header with a non-numeric start. -/
theorem C3_malformed_serves_whole_file_witness :
    (stream_file_with_ranges [1, 2] (some "bytes=x-y")).body = [1, 2] ∧
    (stream_file_with_ranges [1, 2] (some "bytes=x-y")).contentLength = ((2 : Nat) : Int) ∧
    (stream_file_with_ranges [1, 2] (some "bytes=x-y")).status = 206 ∧
    (stream_file_with_ranges [1, 2] (some "bytes=x-y")).contentRange =
      some (0, ((2 : Nat) : Int) - 1, ((2 : Nat) : Int)) :=
  C3_malformed_serves_whole_file [1, 2] "bytes=x-y" (by decide) (by decide)

/-- C10: when the parsed start exceeds `fileSize - 1` the start is neither
clamped nor rejected: the response has status 206, a declared
Content-Length of `min(end, fileSize-1) - start + 1 <= 0`, and an empty
body. -/
theorem C10_start_beyond_eof (file : List Nat) (hd : String) (s : Nat)
    (oe : Option Nat) (hne : hd ≠ "")
    (hp : searchBytesRange hd.data = some (s, oe))
    (hs : (file.length : Int) - 1 < (s : Int)) :
    (stream_file_with_ranges file (some hd)).status = 206 ∧
    (stream_file_with_ranges file (some hd)).contentLength =
      effEnd (file.length : Int) oe - (s : Int) + 1 ∧
    (stream_file_with_ranges file (some hd)).contentLength ≤ 0 ∧
    (stream_file_with_ranges file (some hd)).body = [] := by
  rw [stream_parsed file hd s oe hne hp]
  have hle : effEnd (file.length : Int) oe ≤ (file.length : Int) - 1 := by
    unfold effEnd
    exact min_le_right _ _
  have hcl : effEnd (file.length : Int) oe - (s : Int) + 1 ≤ 0 := by omega
  refine ⟨rfl, rfl, hcl, ?_⟩
  show generate file s _ = []
  rw [generate_eq file 0 s _ (by omega)]
  have h0 : (effEnd (file.length : Int) oe - (s : Int) + 1).toNat = 0 := by omega
  rw [h0]
  simp

/-- C10 witness: `bytes=5-` on a 3-byte file. -/
theorem C10_start_beyond_eof_witness :
    (stream_file_with_ranges [7, 7, 7] (some (mkOpenRangeHeader 5))).status = 206 ∧
    (stream_file_with_ranges [7, 7, 7] (some (mkOpenRangeHeader 5))).contentLength =
      effEnd (((3 : Nat) : Int)) none - ((5 : Nat) : Int) + 1 ∧
    (stream_file_with_ranges [7, 7, 7] (some (mkOpenRangeHeader 5))).contentLength ≤ 0 ∧
    (stream_file_with_ranges [7, 7, 7] (some (mkOpenRangeHeader 5))).body = [] :=
  C10_start_beyond_eof [7, 7, 7] (mkOpenRangeHeader 5) 5 none
    (mkOpenRangeHeader_ne_empty 5) (searchBytesRange_mkOpenRangeHeader 5)
    (by decide)

/-! ### `is_web_compatible` (CodecCompatibilityClassifier)

`get_video_info` returns `None` (no probe data) or a dict whose
`video_stream` / `audio_stream` entries are each `None` or a stream dict.
A missing `codec_name` / `format_name` key yields `''` through `.get`, so
those fields are plain strings here.  When `video_stream` is `None` the
Python code raises `AttributeError` at `video_stream.get('codec_name', '')`;
the model returns `none` for that un-handled exception. -/

structure StreamDict where
  codec_name : String := ""
deriving DecidableEq

structure VideoInfo where
  format_name : String := ""
  video_stream : Option StreamDict := none
  audio_stream : Option StreamDict := none
deriving DecidableEq

/-- `Config.WEB_COMPATIBLE_CODECS['video']`. -/
def WEB_VIDEO : List String := ["h264", "avc1", "vp8", "vp9", "av01"]

/-- `Config.WEB_COMPATIBLE_CODECS['audio']`. -/
def WEB_AUDIO : List String := ["aac", "mp3", "opus", "vorbis", "mp4a"]

/-- `Config.WEB_COMPATIBLE_CODECS['containers']`. -/
def WEB_CONTAINERS : List String := ["mp4", "webm", "ogg", "mov"]

/-- Lower-case a character list (Python `.lower()` on the ASCII inputs of
interest). -/
def lowerList (l : List Char) : List Char := l.map Char.toLower

/-- Python `needle in hay` on strings: substring containment. -/
def containsSub (hay needle : List Char) : Bool :=
  if needle.isPrefixOf hay then true
  else
    match hay with
    | [] => false
    | _ :: t => containsSub t needle

/-- `is_web_compatible(video_info)`.  `none` models the `AttributeError`
raised when the probe reported no video stream (`video_stream` is `None`). -/
def is_web_compatible (video_info : Option VideoInfo) : Option Bool :=
  match video_info with
  | none => some false
  | some vi =>
    let format_name := lowerList vi.format_name.data
    let container_compatible :=
      WEB_CONTAINERS.any (fun fmt => containsSub format_name fmt.data)
    match vi.video_stream with
    | none => none
    | some vs =>
      let video_codec := lowerList vs.codec_name.data
      let video_compatible := WEB_VIDEO.any (fun c => c.data = video_codec)
      let audio_codec : List Char :=
        match vi.audio_stream with
        | some a => lowerList a.codec_name.data
        | none => "none".data
      let audio_compatible :=
        WEB_AUDIO.any (fun c => c.data = audio_codec) || audio_codec = "none".data
      some (container_compatible && video_compatible && audio_compatible)

/-- Claim side: the container name contains a whitelisted token
(case-insensitive). -/
def claimContainerOk (vi : VideoInfo) : Prop :=
  ∃ fmt ∈ WEB_CONTAINERS, containsSub (lowerList vi.format_name.data) fmt.data = true

/-- Claim side: the detected video codec is a member of the video whitelist. -/
def claimVideoOk : Option StreamDict → Prop
  | none => False
  | some vs => lowerList vs.codec_name.data ∈ WEB_VIDEO.map String.data

/-- Claim side: no audio stream, or the detected audio codec is a member of
the audio whitelist. -/
def claimAudioOk : Option StreamDict → Prop
  | none => True
  | some a => lowerList a.codec_name.data ∈ WEB_AUDIO.map String.data

/-- The code's extra escape hatch: an audio stream whose codec name
lower-cases to the sentinel string `none`. -/
def audioSentinel : Option StreamDict → Prop
  | none => False
  | some a => lowerList a.codec_name.data = "none".data

instance (vi : VideoInfo) : Decidable (claimContainerOk vi) :=
  inferInstanceAs (Decidable (∃ fmt ∈ WEB_CONTAINERS,
    containsSub (lowerList vi.format_name.data) fmt.data = true))

instance (o : Option StreamDict) : Decidable (claimVideoOk o) :=
  match o with
  | none => isFalse (fun h => h)
  | some _ => inferInstanceAs (Decidable (_ ∈ _))

instance (o : Option StreamDict) : Decidable (claimAudioOk o) :=
  match o with
  | none => isTrue trivial
  | some _ => inferInstanceAs (Decidable (_ ∈ _))

instance (o : Option StreamDict) : Decidable (audioSentinel o) :=
  match o with
  | none => isFalse (fun h => h)
  | some _ => inferInstanceAs (Decidable (_ = _))

/-- C4 counterexample: an audio stream whose codec name is literally the
string `none` collides with the code's absent-audio sentinel: the
classifier returns true although an audio stream is present and its codec
is not in the audio whitelist, refuting the claimed "if and only if". -/
theorem C4_counterexample :
    is_web_compatible (some ⟨"mp4", some ⟨"h264"⟩, some ⟨"none"⟩⟩) = some true ∧
    (⟨"mp4", some ⟨"h264"⟩, some ⟨"none"⟩⟩ : VideoInfo).audio_stream ≠ none ∧
    ¬ claimAudioOk (⟨"mp4", some ⟨"h264"⟩, some ⟨"none"⟩⟩ : VideoInfo).audio_stream := by
  decide

/-- C4 (amended): for probe data with a video stream, the classifier
returns true iff the container name contains a whitelisted token AND the
video codec is whitelisted AND (there is no audio stream OR the audio codec
is whitelisted OR — the amendment — the audio codec string lower-cases to
the sentinel `none`); absent probe data yields false.  (For probe data
whose `video_stream` is `None` the code raises instead of returning;
`is_web_compatible` is then `none`, never `some true`.) -/
theorem C4_classifier_iff :
    (∀ vi : VideoInfo,
      is_web_compatible (some vi) = some true ↔
        claimContainerOk vi ∧ claimVideoOk vi.video_stream ∧
          (claimAudioOk vi.audio_stream ∨ audioSentinel vi.audio_stream)) ∧
    is_web_compatible none = some false := by
  constructor
  · intro vi
    obtain ⟨f, v, a⟩ := vi
    cases v with
    | none =>
      constructor
      · intro h
        simp [is_web_compatible] at h
      · rintro ⟨-, h2, -⟩
        exact (h2 : False).elim
    | some vs =>
      cases a with
      | none =>
        simp only [is_web_compatible, claimContainerOk, claimVideoOk, claimAudioOk,
          audioSentinel, Option.some.injEq, Bool.and_eq_true, Bool.or_eq_true,
          List.any_eq_true, decide_eq_true_eq, List.mem_map]
        tauto
      | some au =>
        simp only [is_web_compatible, claimContainerOk, claimVideoOk, claimAudioOk,
          audioSentinel, Option.some.injEq, Bool.and_eq_true, Bool.or_eq_true,
          List.any_eq_true, decide_eq_true_eq, List.mem_map]
        aesop
  · rfl

/-- C4 witness: the spec's own example (`mp4` + `h264`, no audio) through
the amended equivalence. -/
theorem C4_classifier_iff_witness :
    is_web_compatible (some ⟨"mp4", some ⟨"h264"⟩, none⟩) = some true :=
  (C4_classifier_iff.1 ⟨"mp4", some ⟨"h264"⟩, none⟩).mpr (by decide)

/-! ### StreamingTokenStore

`streaming_tokens` is a Python dict `token -> data`; it is modelled as an
insertion-ordered association list with unique keys.  `time.time()` and the
random token text produced by `secrets.token_urlsafe(32)` are explicit
parameters. -/

structure TokenData where
  filename : String
  user_id : String
  expires : Nat
  created : Nat
deriving DecidableEq

/-- `Config.STREAM_TOKEN_EXPIRY = 3600`. -/
def STREAM_TOKEN_EXPIRY : Nat := 3600

abbrev TokenStore := List (String × TokenData)

/-- Python dict assignment `d[k] = v`: overwrite in place or append. -/
def storeInsert (store : TokenStore) (k : String) (v : TokenData) : TokenStore :=
  match store with
  | [] => [(k, v)]
  | (k', v') :: rest =>
    if k' = k then (k, v) :: rest else (k', v') :: storeInsert rest k v

/-- `cleanup_expired_tokens()`: drop every entry with `expires < now`. -/
def cleanup_expired_tokens (now : Nat) (store : TokenStore) : TokenStore :=
  store.filter (fun p => ¬ p.2.expires < now)

/-- `generate_streaming_token(filename, user_id)`: insert the fresh token,
then purge expired entries; returns the new store and the token. -/
def generate_streaming_token (token filename user_id : String) (now : Nat)
    (store : TokenStore) : TokenStore × String :=
  let expiry := now + STREAM_TOKEN_EXPIRY
  let store1 := storeInsert store token
    { filename := filename, user_id := user_id, expires := expiry, created := now }
  (cleanup_expired_tokens now store1, token)

/-- `validate_streaming_token(token, filename)`: the token must exist, not
be expired (an expired entry is deleted on the spot), and its bound
filename must equal the supplied one.  Returns the result and the
(possibly updated) store. -/
def validate_streaming_token (token filename : String) (now : Nat)
    (store : TokenStore) : Bool × TokenStore :=
  match store.lookup token with
  | none => (false, store)
  | some d =>
    if d.expires < now then (false, store.filter (fun p => p.1 ≠ token))
    else if d.filename ≠ filename then (false, store)
    else (true, store)

/-- C5 counterexample: validation does **not** succeed "exactly once" per
TTL window — the token is not consumed, so a second validation in the same
window succeeds as well. -/
theorem C5_counterexample :
    (validate_streaming_token "t" "a" 1
      (generate_streaming_token "t" "a" "u" 0 []).1).1 = true ∧
    (validate_streaming_token "t" "a" 2
      (validate_streaming_token "t" "a" 1
        (generate_streaming_token "t" "a" "u" 0 []).1).2).1 = true := by
  decide

/-- C5 (amended): validation succeeds — every time, not exactly once —
iff the token exists, is unexpired and is bound to the supplied filename;
a successful validation leaves the store unchanged (so it can be repeated
within the TTL window); and after an issuance the store holds no entry
that was expired at issuance time. -/
theorem C5_token_validation :
    ∀ (token filename : String) (now : Nat) (store : TokenStore),
      ((validate_streaming_token token filename now store).1 = true ↔
        ∃ d, store.lookup token = some d ∧
          ¬ d.expires < now ∧ d.filename = filename) ∧
      ((validate_streaming_token token filename now store).1 = true →
        (validate_streaming_token token filename now store).2 = store) ∧
      (∀ (user : String) (p : String × TokenData),
        p ∈ (generate_streaming_token token filename user now store).1 →
          now ≤ p.2.expires) := by
  intro token filename now store
  refine ⟨?_, ?_, ?_⟩
  · unfold validate_streaming_token
    cases hl : store.lookup token with
    | none =>
      simp
    | some d =>
      by_cases he : d.expires < now
      · simp [he]
      · by_cases hf : d.filename = filename
        · simp [he, hf]
          omega
        · simp [he, hf]
  · unfold validate_streaming_token
    cases hl : store.lookup token with
    | none => intro _; rfl
    | some d =>
      by_cases he : d.expires < now
      · simp [he]
      · by_cases hf : d.filename = filename
        · simp [he, hf]
        · simp [he, hf]
  · intro user p hp
    unfold generate_streaming_token cleanup_expired_tokens at hp
    rw [List.mem_filter] at hp
    have := hp.2
    simp at this
    omega

/-- C5 witness: a freshly issued token validates (twice), the store is
unchanged by validation, and issuance purges nothing that is still valid. -/
theorem C5_token_validation_witness :
    ((validate_streaming_token "t" "a" 1 [("t", ⟨"a", "u", 3600, 0⟩)]).1 = true ↔
      ∃ d, ([("t", ⟨"a", "u", 3600, 0⟩)] : TokenStore).lookup "t" = some d ∧
        ¬ d.expires < 1 ∧ d.filename = "a") ∧
    (validate_streaming_token "t" "a" 1 [("t", ⟨"a", "u", 3600, 0⟩)]).2 =
      [("t", ⟨"a", "u", 3600, 0⟩)] :=
  ⟨(C5_token_validation "t" "a" 1 [("t", ⟨"a", "u", 3600, 0⟩)]).1,
   (C5_token_validation "t" "a" 1 [("t", ⟨"a", "u", 3600, 0⟩)]).2.1 (by decide)⟩

/-! ### A backtracking regex matcher for the episode patterns

Every quantifier in the source's episode regexes applies to a single
character class, so the embedding restricts repetition to character
predicates.  `reMatches` lists all matches anchored at the start of the
input in Python's backtracking priority order (earlier subexpressions
dominate; lazy quantifiers try shortest first, greedy longest first), and
`reSearch` scans start positions left to right taking the first position
with a match — exactly `re.search`.  A match is `(consumed, rest, captures)`. -/

abbrev Caps := List (Nat × List Char)

inductive RE where
  | pred : (Char → Bool) → RE
  | seq : RE → RE → RE
  | plusGreedy : (Char → Bool) → RE
  | plusLazy : (Char → Bool) → RE
  | starGreedy : (Char → Bool) → RE
  | starLazy : (Char → Bool) → RE
  | optGreedy : (Char → Bool) → RE
  | group : Nat → RE → RE

/-- All matches of `r` anchored at the head of `cs`, best first. -/
def reMatches : RE → List Char → List (List Char × List Char × Caps)
  | RE.pred p, cs =>
    match cs with
    | [] => []
    | c :: rest => if p c then [([c], rest, [])] else []
  | RE.seq r1 r2, cs =>
    (reMatches r1 cs).flatMap (fun m1 =>
      (reMatches r2 m1.2.1).map (fun m2 =>
        (m1.1 ++ m2.1, m2.2.1, m1.2.2 ++ m2.2.2)))
  | RE.plusGreedy p, cs =>
    ((List.range (cs.takeWhile p).length).reverse.map (fun i => i + 1)).map
      (fun k => (cs.take k, cs.drop k, []))
  | RE.plusLazy p, cs =>
    ((List.range (cs.takeWhile p).length).map (fun i => i + 1)).map
      (fun k => (cs.take k, cs.drop k, []))
  | RE.starGreedy p, cs =>
    ((List.range ((cs.takeWhile p).length + 1)).reverse).map
      (fun k => (cs.take k, cs.drop k, []))
  | RE.starLazy p, cs =>
    (List.range ((cs.takeWhile p).length + 1)).map
      (fun k => (cs.take k, cs.drop k, []))
  | RE.optGreedy p, cs =>
    match cs with
    | [] => [([], [], [])]
    | c :: rest => if p c then [([c], rest, []), ([], c :: rest, [])]
                   else [([], c :: rest, [])]
  | RE.group n r, cs =>
    (reMatches r cs).map (fun m => (m.1, m.2.1, m.2.2 ++ [(n, m.1)]))

/-- `re.search`: scan start positions left to right, return the captures of
the first (best) match at the first position that has one. -/
def reSearch (r : RE) : List Char → Option Caps
  | [] => (reMatches r []).head?.map (fun m => m.2.2)
  | c :: cs =>
    match (reMatches r (c :: cs)).head? with
    | some m => some m.2.2
    | none => reSearch r cs

/-- `match.group(n)` for the patterns at hand (each group number occurs at
most once per pattern). -/
def capGet (caps : Caps) (n : Nat) : List Char := (caps.lookup n).getD []

/-- Every match decomposes the input: consumed ++ rest = input. -/
theorem reMatches_consumed (r : RE) :
    ∀ (cs : List Char) m, m ∈ reMatches r cs → m.1 ++ m.2.1 = cs := by
  induction r with
  | pred p =>
    intro cs m hm
    match cs, hm with
    | c :: rest, hm =>
      rw [reMatches] at hm
      split at hm
      · rcases List.mem_singleton.mp hm with rfl
        rfl
      · cases hm
  | seq r1 r2 ih1 ih2 =>
    intro cs m hm
    rw [reMatches, List.mem_flatMap] at hm
    obtain ⟨m1, hm1, hm2⟩ := hm
    rw [List.mem_map] at hm2
    obtain ⟨m2, hm2, rfl⟩ := hm2
    have h1 := ih1 cs m1 hm1
    have h2 := ih2 m1.2.1 m2 hm2
    show (m1.1 ++ m2.1) ++ m2.2.1 = cs
    rw [List.append_assoc, h2, h1]
  | plusGreedy p =>
    intro cs m hm
    rw [reMatches, List.mem_map] at hm
    obtain ⟨k, _, rfl⟩ := hm
    exact List.take_append_drop k cs
  | plusLazy p =>
    intro cs m hm
    rw [reMatches, List.mem_map] at hm
    obtain ⟨k, _, rfl⟩ := hm
    exact List.take_append_drop k cs
  | starGreedy p =>
    intro cs m hm
    rw [reMatches, List.mem_map] at hm
    obtain ⟨k, _, rfl⟩ := hm
    exact List.take_append_drop k cs
  | starLazy p =>
    intro cs m hm
    rw [reMatches, List.mem_map] at hm
    obtain ⟨k, _, rfl⟩ := hm
    exact List.take_append_drop k cs
  | optGreedy p =>
    intro cs m hm
    match cs, hm with
    | [], hm =>
      rw [reMatches] at hm
      rcases List.mem_singleton.mp hm with rfl
      rfl
    | c :: rest, hm =>
      rw [reMatches] at hm
      split at hm
      · rcases List.mem_cons.mp hm with rfl | hm
        · rfl
        · rcases List.mem_singleton.mp hm with rfl
          rfl
      · rcases List.mem_singleton.mp hm with rfl
        rfl
  | group n r ih =>
    intro cs m hm
    rw [reMatches, List.mem_map] at hm
    obtain ⟨m1, hm1, rfl⟩ := hm
    exact ih cs m1 hm1

/-- Patterns that must consume at least one decimal digit to match. -/
inductive MandDigit : RE → Prop
  | plusG : MandDigit (RE.plusGreedy Char.isDigit)
  | plusL : MandDigit (RE.plusLazy Char.isDigit)
  | seqL {r1 r2 : RE} : MandDigit r1 → MandDigit (RE.seq r1 r2)
  | seqR {r1 r2 : RE} : MandDigit r2 → MandDigit (RE.seq r1 r2)
  | group {r : RE} (n : Nat) : MandDigit r → MandDigit (RE.group n r)

theorem take_head_digit {cs : List Char} {k : Nat} (hk : 1 ≤ k)
    (hlen : k ≤ (cs.takeWhile Char.isDigit).length) :
    ∃ c ∈ cs.take k, c.isDigit = true := by
  match cs with
  | [] => simp at hlen; omega
  | c :: rest =>
    have hd : c.isDigit = true := by
      by_contra hcd
      rw [List.takeWhile_cons] at hlen
      simp [Bool.not_eq_true] at hcd
      rw [hcd] at hlen
      simp at hlen
      omega
    refine ⟨c, ?_, hd⟩
    match k, hk with
    | k + 1, _ => simp

/-- A digit-mandatory pattern only matches by consuming a digit. -/
theorem reMatches_mand_digit {r : RE} (hr : MandDigit r) :
    ∀ (cs : List Char) m, m ∈ reMatches r cs → ∃ c ∈ m.1, c.isDigit = true := by
  induction hr with
  | plusG =>
    intro cs m hm
    rw [reMatches, List.mem_map] at hm
    obtain ⟨k, hk, rfl⟩ := hm
    rw [List.mem_map] at hk
    obtain ⟨i, hi, rfl⟩ := hk
    rw [List.mem_reverse, List.mem_range] at hi
    exact take_head_digit (by omega) (by omega)
  | plusL =>
    intro cs m hm
    rw [reMatches, List.mem_map] at hm
    obtain ⟨k, hk, rfl⟩ := hm
    rw [List.mem_map] at hk
    obtain ⟨i, hi, rfl⟩ := hk
    rw [List.mem_range] at hi
    exact take_head_digit (by omega) (by omega)
  | seqL h ih =>
    intro cs m hm
    rw [reMatches, List.mem_flatMap] at hm
    obtain ⟨m1, hm1, hm2⟩ := hm
    rw [List.mem_map] at hm2
    obtain ⟨m2, hm2, rfl⟩ := hm2
    obtain ⟨c, hc1, hc2⟩ := ih cs m1 hm1
    exact ⟨c, List.mem_append_left _ hc1, hc2⟩
  | seqR h ih =>
    intro cs m hm
    rw [reMatches, List.mem_flatMap] at hm
    obtain ⟨m1, hm1, hm2⟩ := hm
    rw [List.mem_map] at hm2
    obtain ⟨m2, hm2, rfl⟩ := hm2
    obtain ⟨c, hc1, hc2⟩ := ih m1.2.1 m2 hm2
    exact ⟨c, List.mem_append_right _ hc1, hc2⟩
  | group n h ih =>
    intro cs m hm
    rw [reMatches, List.mem_map] at hm
    obtain ⟨m1, hm1, rfl⟩ := hm
    exact ih cs m1 hm1

/-- On digit-free input a digit-mandatory pattern has no match. -/
theorem reMatches_nil_of_no_digit {r : RE} (hr : MandDigit r) (cs : List Char)
    (h : ∀ c ∈ cs, c.isDigit = false) : reMatches r cs = [] := by
  cases hq : reMatches r cs with
  | nil => rfl
  | cons m ms =>
    exfalso
    have hmem : m ∈ reMatches r cs := by rw [hq]; exact List.mem_cons_self m ms
    obtain ⟨c, hc1, hc2⟩ := reMatches_mand_digit hr cs m hmem
    have hcs : c ∈ cs := by
      rw [← reMatches_consumed r cs m hmem]
      exact List.mem_append_left _ hc1
    rw [h c hcs] at hc2
    cases hc2

/-- `re.search` of a digit-mandatory pattern fails on digit-free input. -/
theorem reSearch_none_of_no_digit {r : RE} (hr : MandDigit r) :
    ∀ (cs : List Char), (∀ c ∈ cs, c.isDigit = false) → reSearch r cs = none := by
  intro cs
  induction cs with
  | nil =>
    intro h
    rw [reSearch, reMatches_nil_of_no_digit hr [] h]
    rfl
  | cons c rest ih =>
    intro h
    rw [reSearch, reMatches_nil_of_no_digit hr (c :: rest) h]
    exact ih (fun x hx => h x (List.mem_cons_of_mem c hx))

/-! ### `extract_episode_info`

The seven patterns of the source, compiled with `re.IGNORECASE` (all
literal characters are matched case-insensitively; `.` matches everything
but a newline; `\s` and `\d` are the usual classes). -/

/-- `.` under the default flags: any character except a newline. -/
def isDot (c : Char) : Bool := c ≠ '\n'

/-- A literal character under `re.IGNORECASE`. -/
def charCI (a : Char) (c : Char) : Bool := c.toLower = a.toLower

/-- `(.+?)\s+[Ss](\d+)[Ee](\d+)` — `Series S01E01`. -/
def P1 : RE :=
  RE.seq (RE.group 1 (RE.plusLazy isDot))
    (RE.seq (RE.plusGreedy isPySpace)
      (RE.seq (RE.pred (charCI 's'))
        (RE.seq (RE.group 2 (RE.plusGreedy Char.isDigit))
          (RE.seq (RE.pred (charCI 'e'))
            (RE.group 3 (RE.plusGreedy Char.isDigit))))))

/-- `(.+?)\s+[Ss]eason\s*(\d+).*?[Ee]pisode\s*(\d+)` — `Series Season 1
Episode 1`. -/
def P2 : RE :=
  RE.seq (RE.group 1 (RE.plusLazy isDot))
    (RE.seq (RE.plusGreedy isPySpace)
      (RE.seq (RE.pred (charCI 's'))
        (RE.seq (RE.pred (charCI 'e'))
          (RE.seq (RE.pred (charCI 'a'))
            (RE.seq (RE.pred (charCI 's'))
              (RE.seq (RE.pred (charCI 'o'))
                (RE.seq (RE.pred (charCI 'n'))
                  (RE.seq (RE.starGreedy isPySpace)
                    (RE.seq (RE.group 2 (RE.plusGreedy Char.isDigit))
                      (RE.seq (RE.starLazy isDot)
                        (RE.seq (RE.pred (charCI 'e'))
                          (RE.seq (RE.pred (charCI 'p'))
                            (RE.seq (RE.pred (charCI 'i'))
                              (RE.seq (RE.pred (charCI 's'))
                                (RE.seq (RE.pred (charCI 'o'))
                                  (RE.seq (RE.pred (charCI 'd'))
                                    (RE.seq (RE.pred (charCI 'e'))
                                      (RE.seq (RE.starGreedy isPySpace)
                                        (RE.group 3 (RE.plusGreedy Char.isDigit))))))))))))))))))))

/-- `(.+?)\s+(\d+)x(\d+)` — `Series 1x01`. -/
def P3 : RE :=
  RE.seq (RE.group 1 (RE.plusLazy isDot))
    (RE.seq (RE.plusGreedy isPySpace)
      (RE.seq (RE.group 2 (RE.plusGreedy Char.isDigit))
        (RE.seq (RE.pred (charCI 'x'))
          (RE.group 3 (RE.plusGreedy Char.isDigit)))))

/-- `(.+?)\s+[Ee]p\.?\s*(\d+)` — `Series Ep01`. -/
def P4 : RE :=
  RE.seq (RE.group 1 (RE.plusLazy isDot))
    (RE.seq (RE.plusGreedy isPySpace)
      (RE.seq (RE.pred (charCI 'e'))
        (RE.seq (RE.pred (charCI 'p'))
          (RE.seq (RE.optGreedy (fun c => c = '.'))
            (RE.seq (RE.starGreedy isPySpace)
              (RE.group 2 (RE.plusGreedy Char.isDigit)))))))

/-- `(.+?)\s+[Ee]pisode\s*(\d+)` — `Series Episode 01`. -/
def P5 : RE :=
  RE.seq (RE.group 1 (RE.plusLazy isDot))
    (RE.seq (RE.plusGreedy isPySpace)
      (RE.seq (RE.pred (charCI 'e'))
        (RE.seq (RE.pred (charCI 'p'))
          (RE.seq (RE.pred (charCI 'i'))
            (RE.seq (RE.pred (charCI 's'))
              (RE.seq (RE.pred (charCI 'o'))
                (RE.seq (RE.pred (charCI 'd'))
                  (RE.seq (RE.pred (charCI 'e'))
                    (RE.seq (RE.starGreedy isPySpace)
                      (RE.group 2 (RE.plusGreedy Char.isDigit)))))))))))

/-- `(.+?)\s+[Ee](\d+)` — `Series E01`. -/
def P6 : RE :=
  RE.seq (RE.group 1 (RE.plusLazy isDot))
    (RE.seq (RE.plusGreedy isPySpace)
      (RE.seq (RE.pred (charCI 'e'))
        (RE.group 2 (RE.plusGreedy Char.isDigit))))

/-- `(.+?)\s+(\d+)` — `Series 01`. -/
def P7 : RE :=
  RE.seq (RE.group 1 (RE.plusLazy isDot))
    (RE.seq (RE.plusGreedy isPySpace)
      (RE.group 2 (RE.plusGreedy Char.isDigit)))

/-- Whether a pattern captures `(series, season, episode)` or only
`(series, episode)`. -/
inductive PatKind where
  | sse
  | se
deriving DecidableEq

/-- The ordered pattern list of `extract_episode_info`. -/
def PATTERNS : List (RE × PatKind) :=
  [(P1, .sse), (P2, .sse), (P3, .sse), (P4, .se), (P5, .se), (P6, .se), (P7, .se)]

/-- Try the patterns in order; first successful `re.search` wins. -/
def applyPatterns : List (RE × PatKind) → List Char → Option (PatKind × Caps)
  | [], _ => none
  | (r, k) :: rest, cs =>
    match reSearch r cs with
    | some caps => some (k, caps)
    | none => applyPatterns rest cs

/-- The known video extensions of the cleanup regex
`\.(mp4|mkv|avi|mov|wmv|flv|webm|m4v)$`. -/
def VIDEO_EXT_LIST : List (List Char) :=
  ["mp4".data, "mkv".data, "avi".data, "mov".data,
   "wmv".data, "flv".data, "webm".data, "m4v".data]

/-- Remove a trailing `.<ext>` (case-insensitive) if present.  The listed
extensions are pairwise non-overlapping as suffixes, so at most one
alternative can match the `$`-anchored regex and the leftmost match is
that suffix. -/
def stripExtBody (body : List Char) : List Char :=
  match VIDEO_EXT_LIST.find? (fun ext => ('.' :: ext).isSuffixOf (lowerList body)) with
  | some ext => body.take (body.length - (ext.length + 1))
  | none => body

/-- `re.sub(r'\.(mp4|...)$', '', filename, flags=re.IGNORECASE)`.
Python's `$` also matches just before one final newline, so a single
trailing newline is preserved around the removal. -/
def stripVideoExt (l : List Char) : List Char :=
  if l.getLast? = some '\n' then stripExtBody l.dropLast ++ ['\n']
  else stripExtBody l

theorem dropWhile_length_le (p : Char → Bool) (l : List Char) :
    (l.dropWhile p).length ≤ l.length := by
  induction l with
  | nil => simp
  | cons c cs ih =>
    rw [List.dropWhile_cons]
    split
    · simp
      omega
    · simp

/-- Scanner for `re.findall(r'\d+', s)`: the second argument holds the
digit run in progress, reversed (empty = not inside a run). -/
def digitRunsGo : List Char → List Char → List (List Char)
  | [], [] => []
  | [], a :: acc => [(a :: acc).reverse]
  | c :: cs, [] =>
    if c.isDigit then digitRunsGo cs [c] else digitRunsGo cs []
  | c :: cs, a :: acc =>
    if c.isDigit then digitRunsGo cs (c :: a :: acc)
    else (a :: acc).reverse :: digitRunsGo cs []

/-- `re.findall(r'\d+', s)`: the maximal digit runs, left to right. -/
def digitRuns (l : List Char) : List (List Char) := digitRunsGo l []

/-- `re.sub(r'\s*\d+\s*$', '', s)`: the leftmost `$`-anchored match is the
longest suffix of the form `\s* \d+ \s*`; remove it.  (A trailing newline
is itself `\s`, so the before-final-newline variant of `$` adds nothing.) -/
def stripTrailingNum (l : List Char) : List Char :=
  let r1 := l.reverse.dropWhile isPySpace
  let r2 := r1.dropWhile Char.isDigit
  if r2.length = r1.length then l
  else (r2.dropWhile isPySpace).reverse

/-- The result record of `extract_episode_info`. -/
structure EpisodeInfo where
  original_filename : String
  clean_title : String
  season : Option Nat
  episode : Option Nat
  series_name : Option String
deriving DecidableEq

/-- The pattern phase: first matching pattern fills the fields. -/
def afterPatterns (cs : List Char) (base : EpisodeInfo) : EpisodeInfo :=
  match applyPatterns PATTERNS cs with
  | none => base
  | some (PatKind.sse, caps) =>
    { base with series_name := some ⟨pyStrip (capGet caps 1)⟩
                season := some (digitsToNat (capGet caps 2))
                episode := some (digitsToNat (capGet caps 3)) }
  | some (PatKind.se, caps) =>
    { base with series_name := some ⟨pyStrip (capGet caps 1)⟩
                episode := some (digitsToNat (capGet caps 2)) }

/-- Python truthiness of the `series_name` slot (`None` or `''` are falsy). -/
def seriesNameFalsy : Option String → Bool
  | none => true
  | some s => s = ""

/-- The fallback phase: `if not episode_info['series_name']`, take the last
digit run as the episode and the text with the trailing number stripped as
the series name. -/
def applyFallback (cs : List Char) (info : EpisodeInfo) : EpisodeInfo :=
  if seriesNameFalsy info.series_name then
    match (digitRuns cs).getLast? with
    | none => info
    | some lastRun =>
      if stripTrailingNum cs ≠ [] then
        { info with episode := some (digitsToNat lastRun)
                    series_name := some ⟨pyStrip (stripTrailingNum cs)⟩ }
      else
        { info with episode := some (digitsToNat lastRun) }
  else info

/-- `extract_episode_info(filename)`. -/
def extract_episode_info (filename : String) : EpisodeInfo :=
  applyFallback (stripVideoExt filename.data)
    (afterPatterns (stripVideoExt filename.data)
      { original_filename := filename
        clean_title := ⟨stripVideoExt filename.data⟩
        season := none
        episode := none
        series_name := none })

theorem mem_stripExtBody {c : Char} {b : List Char} (h : c ∈ stripExtBody b) :
    c ∈ b := by
  unfold stripExtBody at h
  split at h
  · exact List.take_subset _ _ h
  · exact h

theorem mem_stripVideoExt {c : Char} {l : List Char} (h : c ∈ stripVideoExt l) :
    c ∈ l := by
  unfold stripVideoExt at h
  split at h
  · next hl =>
    rcases List.mem_append.mp h with h1 | h1
    · exact List.mem_of_mem_dropLast (mem_stripExtBody h1)
    · rcases List.mem_singleton.mp h1 with rfl
      obtain ⟨hne, heq⟩ := List.mem_getLast?_eq_getLast (by rw [hl]; rfl)
      rw [heq]
      exact List.getLast_mem hne
  · exact mem_stripExtBody h

theorem applyPatterns_none (ps : List (RE × PatKind)) (cs : List Char)
    (h : ∀ pr ∈ ps, reSearch pr.1 cs = none) : applyPatterns ps cs = none := by
  induction ps with
  | nil => rfl
  | cons pr rest ih =>
    obtain ⟨r, k⟩ := pr
    rw [applyPatterns, h (r, k) (List.mem_cons_self _ _)]
    exact ih (fun q hq => h q (List.mem_cons_of_mem _ hq))

/-- Every pattern of the cascade demands at least one digit. -/
theorem PATTERNS_mand : ∀ pr ∈ PATTERNS, MandDigit pr.1 := by
  intro pr hpr
  have hcases : pr = (P1, PatKind.sse) ∨ pr = (P2, PatKind.sse) ∨
      pr = (P3, PatKind.sse) ∨ pr = (P4, PatKind.se) ∨ pr = (P5, PatKind.se) ∨
      pr = (P6, PatKind.se) ∨ pr = (P7, PatKind.se) := by
    simpa [PATTERNS] using hpr
  rcases hcases with rfl | rfl | rfl | rfl | rfl | rfl | rfl <;>
    dsimp only [P1, P2, P3, P4, P5, P6, P7] <;>
    repeat first
      | exact MandDigit.plusG
      | apply MandDigit.group
      | apply MandDigit.seqR

theorem digitRuns_nil (l : List Char) (h : ∀ c ∈ l, c.isDigit = false) :
    digitRuns l = [] := by
  show digitRunsGo l [] = []
  induction l with
  | nil => rfl
  | cons c cs ih =>
    rw [digitRunsGo, h c (List.mem_cons_self _ _)]
    simp only [Bool.false_eq_true, if_false]
    exact ih (fun x hx => h x (List.mem_cons_of_mem _ hx))

/-- C6: the parser strips a known video extension and applies its pattern
rules in order with first match winning: `"Breaking Bad S01E05.mp4"` gives
series "Breaking Bad", season 1, episode 5; `"Show 07.mkv"` gives series
"Show", episode 7, season unset; and for a filename with no digits at all
both the series name and the episode stay unset. -/
theorem C6_episode_extraction :
    extract_episode_info "Breaking Bad S01E05.mp4" =
      { original_filename := "Breaking Bad S01E05.mp4"
        clean_title := "Breaking Bad S01E05"
        season := some 1
        episode := some 5
        series_name := some "Breaking Bad" } ∧
    extract_episode_info "Show 07.mkv" =
      { original_filename := "Show 07.mkv"
        clean_title := "Show 07"
        season := none
        episode := some 7
        series_name := some "Show" } ∧
    ∀ f : String, (∀ c ∈ f.data, c.isDigit = false) →
      (extract_episode_info f).series_name = none ∧
      (extract_episode_info f).episode = none := by
  refine ⟨by decide, by decide, ?_⟩
  intro f hf
  have hclean : ∀ c ∈ stripVideoExt f.data, c.isDigit = false :=
    fun c hc => hf c (mem_stripVideoExt hc)
  have hpat : applyPatterns PATTERNS (stripVideoExt f.data) = none := by
    apply applyPatterns_none
    intro pr hpr
    exact reSearch_none_of_no_digit (PATTERNS_mand pr hpr) _
      (fun c hc => by simpa using hclean c hc)
  have hruns : digitRuns (stripVideoExt f.data) = [] :=
    digitRuns_nil _ hclean
  unfold extract_episode_info afterPatterns applyFallback
  rw [hpat, hruns]
  simp [seriesNameFalsy]

/-- C6 witness: a digit-free filename leaves both fields unset. -/
theorem C6_episode_extraction_witness :
    (extract_episode_info "movie.mkv").series_name = none ∧
    (extract_episode_info "movie.mkv").episode = none :=
  C6_episode_extraction.2.2 "movie.mkv" (by decide)

theorem applyFallback_season (cs : List Char) (info : EpisodeInfo) :
    (applyFallback cs info).season = info.season := by
  unfold applyFallback
  split
  · split
    · rfl
    · split <;> rfl
  · rfl

theorem applyFallback_episode (cs : List Char) (info : EpisodeInfo)
    (h : info.episode ≠ none) : (applyFallback cs info).episode ≠ none := by
  unfold applyFallback
  split
  · split
    · exact h
    · split <;> simp
  · exact h

/-- C7: the parser never emits a season without an episode — whenever the
season field is set, the episode field is set as well. -/
theorem C7_season_implies_episode (filename : String)
    (h : (extract_episode_info filename).season ≠ none) :
    (extract_episode_info filename).episode ≠ none := by
  unfold extract_episode_info at h ⊢
  rw [applyFallback_season] at h
  apply applyFallback_episode
  revert h
  unfold afterPatterns
  split
  · intro h; exact absurd rfl h
  · intro _; simp
  · intro h; exact absurd rfl h

/-- C7 witness: a filename with a season has an episode. -/
theorem C7_season_implies_episode_witness :
    (extract_episode_info "A S01E02.mp4").episode ≠ none :=
  C7_season_implies_episode "A S01E02.mp4" (by decide)

/-! ### `natural_sort_key`, `group_files_by_series` and episode navigation

A scanned file record keeps the dict keys the grouping and navigation code
reads: `filename`, `folder`, `type`, and the optional `series_key` (present
only on the enhanced records `group_files_by_series` builds; absent —
`None` through `.get` — on plain scan records).  Python dicts are
insertion-ordered association lists with unique keys.  The `AttributeError`
raised by `None.strip()` when `folder` is falsy and the parsed
`series_name` is `None` is modelled as `Except.error ()`. -/

/-- One element of a `natural_sort_key` list: a lower-cased text part or a
numeric value of a digit run. -/
inductive NElem where
  | str : List Char → NElem
  | num : Nat → NElem
deriving DecidableEq

mutual

/-- Scanner state inside a text part (`acc` reversed).  `re.split` always
emits the text part (possibly empty) before a digit run or the end. -/
def nkText : List Char → List Char → List NElem
  | [], acc => [NElem.str (lowerList acc.reverse)]
  | c :: cs, acc =>
    if c.isDigit then NElem.str (lowerList acc.reverse) :: nkNum cs [c]
    else nkText cs (c :: acc)

/-- Scanner state inside a digit run (`acc` reversed, nonempty). -/
def nkNum : List Char → List Char → List NElem
  | [], acc => [NElem.num (digitsToNat acc.reverse), NElem.str []]
  | c :: cs, acc =>
    if c.isDigit then nkNum cs (c :: acc)
    else NElem.num (digitsToNat acc.reverse) :: nkText cs [c]

end

/-- `natural_sort_key(text)`: `re.split('([0-9]+)', text)` keeps the
(possibly empty) text parts around each maximal digit run; digit runs map
to their numeric value, text parts to lower case. -/
def naturalKey (l : List Char) : List NElem := nkText l []

/-- Python string comparison: lexicographic on code points. -/
def charListLt : List Char → List Char → Bool
  | [], [] => false
  | [], _ :: _ => true
  | _ :: _, [] => false
  | a :: as, b :: bs => if a < b then true else if a = b then charListLt as bs else false

/-- Comparison of single key elements.  Two `natural_sort_key` lists always
carry the same constructor at equal positions (text at even, number at odd
indices), so the mixed cases — a `TypeError` in Python — are never reached
by the sort; they are mapped to `false`. -/
def nelemLt : NElem → NElem → Bool
  | NElem.num a, NElem.num b => a < b
  | NElem.str a, NElem.str b => charListLt a b
  | NElem.num _, NElem.str _ => false
  | NElem.str _, NElem.num _ => false

/-- Python list comparison: first differing element decides; a strict
prefix is smaller. -/
def keyListLt : List NElem → List NElem → Bool
  | [], [] => false
  | [], _ :: _ => true
  | _ :: _, [] => false
  | a :: as, b :: bs =>
    if nelemLt a b then true else if nelemLt b a then false else keyListLt as bs

/-- A scanned media record (the dict keys this component reads). -/
structure MediaFile where
  filename : String
  folder : String
  ftype : String
  series_key : Option String := none
deriving DecidableEq

/-- An enhanced record `{**file_data, **episode_info, 'series_key': key}`. -/
structure Enhanced where
  file : MediaFile
  info : EpisodeInfo
  series_key : String
deriving DecidableEq

/-- The sort key comparison
`(season or 0, episode or 0, natural_sort_key(filename))`. -/
def epLt (x y : Enhanced) : Bool :=
  if x.info.season.getD 0 < y.info.season.getD 0 then true
  else if y.info.season.getD 0 < x.info.season.getD 0 then false
  else if x.info.episode.getD 0 < y.info.episode.getD 0 then true
  else if y.info.episode.getD 0 < x.info.episode.getD 0 then false
  else keyListLt (naturalKey x.file.filename.data) (naturalKey y.file.filename.data)

/-- Stable insertion: a new element goes after every element not greater
than it. -/
def insertSorted (x : Enhanced) : List Enhanced → List Enhanced
  | [] => [x]
  | y :: ys => if epLt x y then x :: y :: ys else y :: insertSorted x ys

/-- Python's stable `list.sort(key=...)`. -/
def pySort (l : List Enhanced) : List Enhanced :=
  l.foldl (fun acc x => insertSorted x acc) []

/-- The series key expression
`(folder.strip() or episode_info.get('series_name','').strip() or
'Unknown Series')` followed by `replace('/',' ').strip()` and the final
empty-string fallback.  When `folder` is falsy and `series_name` is `None`,
Python evaluates `None.strip()` and raises `AttributeError`. -/
def seriesKeyFor (folder : String) (series_name : Option String) :
    Except Unit String :=
  let base : Except Unit (List Char) :=
    if pyStrip folder.data ≠ [] then Except.ok (pyStrip folder.data)
    else match series_name with
      | none => Except.error ()
      | some s =>
        if pyStrip s.data ≠ [] then Except.ok (pyStrip s.data)
        else Except.ok "Unknown Series".data
  base.map (fun k =>
    let k2 := pyStrip (k.map (fun c => if c = '/' then ' ' else c))
    if k2 = [] then "Unknown Series" else ⟨k2⟩)

/-- Append to the group of `key`, creating it at the end if absent
(Python dict insertion order). -/
def addToGroups : List (String × List Enhanced) → String → Enhanced →
    List (String × List Enhanced)
  | [], key, e => [(key, [e])]
  | (k, l) :: rest, key, e =>
    if k = key then (k, l ++ [e]) :: rest
    else (k, l) :: addToGroups rest key e

/-- `group_files_by_series(files)`: group the video records, then sort each
group by `(season or 0, episode or 0, natural_sort_key(filename))`. -/
def group_files_by_series (files : List MediaFile) :
    Except Unit (List (String × List Enhanced)) :=
  (files.foldlM (fun (groups : List (String × List Enhanced)) (fd : MediaFile) =>
    if fd.ftype ≠ "video" then pure groups
    else
      match seriesKeyFor fd.folder (extract_episode_info fd.filename).series_name with
      | Except.error e => Except.error e
      | Except.ok key =>
        pure (addToGroups groups key
          { file := fd, info := extract_episode_info fd.filename, series_key := key }))
    ([] : List (String × List Enhanced))).map
    (fun (groups : List (String × List Enhanced)) =>
      groups.map (fun (g : String × List Enhanced) => (g.1, pySort g.2)))

/-- `find_next_episode(current_file, all_files)`. -/
def find_next_episode (current : MediaFile) (all : List MediaFile) :
    Except Unit (Option Enhanced) :=
  if current.ftype ≠ "video" then Except.ok none
  else
    match group_files_by_series all with
    | Except.error e => Except.error e
    | Except.ok groups =>
      match current.series_key with
      | none => Except.ok none
      | some key =>
        if key = "" then Except.ok none
        else
          match groups.find? (fun p => p.1 = key) with
          | none => Except.ok none
          | some g =>
            match g.2.findIdx? (fun ep => ep.file.filename = current.filename) with
            | none => Except.ok none
            | some i =>
              if i + 1 < g.2.length then Except.ok g.2[i + 1]? else Except.ok none

/-- `find_previous_episode(current_file, all_files)`. -/
def find_previous_episode (current : MediaFile) (all : List MediaFile) :
    Except Unit (Option Enhanced) :=
  if current.ftype ≠ "video" then Except.ok none
  else
    match group_files_by_series all with
    | Except.error e => Except.error e
    | Except.ok groups =>
      match current.series_key with
      | none => Except.ok none
      | some key =>
        if key = "" then Except.ok none
        else
          match groups.find? (fun p => p.1 = key) with
          | none => Except.ok none
          | some g =>
            match g.2.findIdx? (fun ep => ep.file.filename = current.filename) with
            | none => Except.ok none
            | some i =>
              if 0 < i then Except.ok g.2[i - 1]? else Except.ok none

/-- C8: the claim promises the fallback key "Unknown Series" for every
video record, but a video in the root folder (`folder == ''`) whose
filename yields no series name makes the code evaluate `None.strip()`:
grouping raises `AttributeError` instead of producing a key. -/
theorem C8_root_video_crashes :
    group_files_by_series
      [{ filename := "movie.mp4", folder := "", ftype := "video" }] =
      Except.error () := by
  rfl

/-- Extract the filename of a found neighbour (for stating examples). -/
def episodeFilename : Except Unit (Option Enhanced) → Option String
  | Except.ok (some e) => some e.file.filename
  | _ => none

/-- Three episodes of one series, scanned out of order. -/
def exFiles : List MediaFile :=
  [{ filename := "Show S01E02.mp4", folder := "Show", ftype := "video" },
   { filename := "Show S01E01.mp4", folder := "Show", ftype := "video" },
   { filename := "Show S01E10.mp4", folder := "Show", ftype := "video" }]

/-- The record the navigation is asked about, carrying its series key. -/
def exCur (name : String) : MediaFile :=
  { filename := name, folder := "Show", ftype := "video", series_key := some "Show" }

/-- C9: `find_next_episode` / `find_previous_episode` locate the exact
filename match inside the group's ordered list and return the adjacent
element: on `S01E02, S01E01, S01E10` of one series, next(S01E01) = S01E02,
next(S01E10) = none, previous(S01E02) = S01E01; none when the record is
not a video, when its series key is unset, or (concretely) when the key
matches no group; and in general, when the record's key finds group `g`
and its filename is first matched at index `i` of the ordered list, next
returns `g.2[i+1]?` and previous returns none at index 0 and `g.2[i-1]?`
otherwise. -/
theorem C9_navigation :
    episodeFilename (find_next_episode (exCur "Show S01E01.mp4") exFiles) =
      some "Show S01E02.mp4" ∧
    find_next_episode (exCur "Show S01E10.mp4") exFiles = Except.ok none ∧
    episodeFilename (find_previous_episode (exCur "Show S01E02.mp4") exFiles) =
      some "Show S01E01.mp4" ∧
    find_next_episode
      { filename := "x.mp4", folder := "Show", ftype := "video",
        series_key := some "Nope" } exFiles = Except.ok none ∧
    (∀ (f : MediaFile) (all : List MediaFile), f.ftype ≠ "video" →
      find_next_episode f all = Except.ok none ∧
      find_previous_episode f all = Except.ok none) ∧
    (∀ (f : MediaFile) (all : List MediaFile)
       (groups : List (String × List Enhanced)),
      group_files_by_series all = Except.ok groups → f.series_key = none →
      find_next_episode f all = Except.ok none ∧
      find_previous_episode f all = Except.ok none) ∧
    (∀ (current : MediaFile) (all : List MediaFile)
       (groups : List (String × List Enhanced)) (key : String)
       (g : String × List Enhanced) (i : Nat),
      current.ftype = "video" → current.series_key = some key → key ≠ "" →
      group_files_by_series all = Except.ok groups →
      groups.find? (fun p => p.1 = key) = some g →
      g.2.findIdx? (fun ep => ep.file.filename = current.filename) = some i →
      find_next_episode current all = Except.ok g.2[i + 1]? ∧
      find_previous_episode current all =
        Except.ok (if i = 0 then none else g.2[i - 1]?)) := by
  refine ⟨rfl, rfl, rfl, rfl, ?_, ?_, ?_⟩
  · intro f all hf
    constructor
    · unfold find_next_episode
      simp [hf]
    · unfold find_previous_episode
      simp [hf]
  · intro f all groups hg hsk
    by_cases hf : f.ftype ≠ "video"
    · constructor
      · unfold find_next_episode
        simp [hf]
      · unfold find_previous_episode
        simp [hf]
    · constructor
      · unfold find_next_episode
        simp [hf, hg, hsk]
      · unfold find_previous_episode
        simp [hf, hg, hsk]
  · intro current all groups key g i hv hsk hkey hg hfind hidx
    constructor
    · unfold find_next_episode
      rw [hv]
      simp only [ne_eq, not_true_eq_false, if_false, hg, hsk, hkey, if_neg hkey,
        hfind, hidx]
      split
      · rfl
      · next hlt =>
        rw [List.getElem?_eq_none (by omega)]
    · unfold find_previous_episode
      rw [hv]
      simp only [ne_eq, not_true_eq_false, if_false, hg, hsk, hkey, if_neg hkey,
        hfind, hidx]
      rcases Nat.eq_zero_or_pos i with rfl | hi
      · simp
      · rw [if_pos hi, if_neg (by omega)]

/-- C9 witness: the boundary clauses at concrete inputs. -/
theorem C9_navigation_witness :
    (find_next_episode { filename := "pic.jpg", folder := "", ftype := "image" } []
      = Except.ok none ∧
     find_previous_episode { filename := "pic.jpg", folder := "", ftype := "image" } []
      = Except.ok none) ∧
    (find_next_episode { filename := "a.mp4", folder := "Show", ftype := "video" } []
      = Except.ok none ∧
     find_previous_episode { filename := "a.mp4", folder := "Show", ftype := "video" } []
      = Except.ok none) :=
  ⟨C9_navigation.2.2.2.2.1
     { filename := "pic.jpg", folder := "", ftype := "image" } [] (by decide),
   C9_navigation.2.2.2.2.2.1
     { filename := "a.mp4", folder := "Show", ftype := "video" } [] [] rfl rfl⟩

end Senkloud
